import Mathlib

/-!
Verification development for the EleutherAI/ccs reporter-training pipeline.

The development shallowly embeds the layer orchestrator
(`src/ccs/training/train.py`, `Elicit.apply_to_layer`), the linear probes
(`src/elk/utils_evaluation/probes.py`), and the hidden-state normalization
(`src/elk/training/preprocessing.py`).  Components of the repository that are
imported by `train.py` but whose source files are not part of the repo
snapshot (the eigen fitter `eigen_reporter.py`, the contrastive reporter
`ccs_reporter.py`, the metrics module with `evaluate_preds`, `to_one_hot` and
Platt scaling, and the supervised baseline trainer) are modelled from the
specification; each such definition says so in its doc comment.

Real tensors are embedded as nested lists of real numbers (floating point is
idealized as exact real arithmetic, so "equal up to floating-point
order-of-summation error" becomes exact equality).
-/

namespace Ccs

/-! ## Elementary real-valued functions used by the probes and the metrics -/

/-- The logistic squashing function `torch.sigmoid`. -/
noncomputable def sigmoid (z : ℝ) : ℝ := 1 / (1 + Real.exp (-z))

/-- Log-odds, the inverse of `sigmoid` on the open unit interval. -/
noncomputable def logit (p : ℝ) : ℝ := Real.log (p / (1 - p))

theorem sigmoid_pos (z : ℝ) : 0 < sigmoid z := by
  unfold sigmoid
  positivity

theorem sigmoid_lt_one (z : ℝ) : sigmoid z < 1 := by
  unfold sigmoid
  rw [div_lt_one (by positivity)]
  have := Real.exp_pos (-z)
  linarith

theorem sigmoid_strictMono : StrictMono sigmoid := by
  intro a b hab
  unfold sigmoid
  have ha : (0 : ℝ) < 1 + Real.exp (-b) := by positivity
  apply div_lt_div_of_pos_left one_pos ha
  have : Real.exp (-b) < Real.exp (-a) := Real.exp_lt_exp.mpr (by linarith)
  linarith

theorem sigmoid_logit (p : ℝ) (h0 : 0 < p) (h1 : p < 1) : sigmoid (logit p) = p := by
  unfold sigmoid logit
  have hraw : (0 : ℝ) < p / (1 - p) := by
    apply div_pos h0
    linarith
  rw [Real.exp_neg, Real.exp_log hraw]
  rw [inv_div]
  field_simp

/-! ## Streaming Statistics Accumulator (eigen path)

Modelled from the spec: `eigen_reporter.py` (the `EigenFitter` class with its
`update` and `fit_streaming` methods) is imported by `train.py` but is not in
the repository snapshot.  Following spec section 4.1, the accumulator keeps an
example count, a running mean and a running `d x d` centered second-moment
matrix, updated in place per batch with the incremental (Welford-style batch)
mean/covariance formulas; each four-dimensional hidden tensor is flattened so
that the variant and choice axes join the example axis before accumulation
(as in `train.py`, `rearrange(h, "n v k d -> (n v k) d")`). -/

/-- Sum of the `i`-th coordinate over a batch of `d`-dimensional vectors. -/
def coordSum {d : ℕ} (B : List (Fin d → ℝ)) (i : Fin d) : ℝ :=
  (B.map fun x => x i).sum

/-- Sum of the product of coordinates `i` and `j` over a batch. -/
def coordSum2 {d : ℕ} (B : List (Fin d → ℝ)) (i j : Fin d) : ℝ :=
  (B.map fun x => x i * x j).sum

/-- Mean of the `i`-th coordinate over a batch (zero for the empty batch). -/
noncomputable def batchMean {d : ℕ} (B : List (Fin d → ℝ)) (i : Fin d) : ℝ :=
  coordSum B i / B.length

/-- Centered second moment of a batch around its own mean. -/
noncomputable def batchM2 {d : ℕ} (B : List (Fin d → ℝ)) (i j : Fin d) : ℝ :=
  (B.map fun x => (x i - batchMean B i) * (x j - batchMean B j)).sum

/-- Running sufficient statistics of the eigen fitter: example count, running
mean, and running centered second-moment matrix. -/
structure StreamStats (d : ℕ) where
  n : ℕ
  mean : Fin d → ℝ
  m2 : Fin d → Fin d → ℝ

/-- The empty accumulator. -/
def initStats {d : ℕ} : StreamStats d :=
  ⟨0, fun _ => 0, fun _ _ => 0⟩

/-- Incremental in-place batch update of the sufficient statistics
(Welford-style batch merge; memory-bounded in `d`). -/
noncomputable def update {d : ℕ} (s : StreamStats d) (B : List (Fin d → ℝ)) :
    StreamStats d :=
  if B.length = 0 then s
  else
    let m : ℕ := B.length
    let n' : ℕ := s.n + m
    let delta : Fin d → ℝ := fun i => batchMean B i - s.mean i
    { n := n'
      mean := fun i => s.mean i + delta i * m / n'
      m2 := fun i j =>
        s.m2 i j + batchM2 B i j + delta i * delta j * (s.n * m / n') }

/-- The statistics obtained from observing a dataset in one shot. -/
noncomputable def statsOf {d : ℕ} (xs : List (Fin d → ℝ)) : StreamStats d :=
  { n := xs.length
    mean := fun i => coordSum xs i / xs.length
    m2 := fun i j => coordSum2 xs i j - coordSum xs i * coordSum xs j / xs.length }

theorem coordSum_append {d : ℕ} (xs ys : List (Fin d → ℝ)) (i : Fin d) :
    coordSum (xs ++ ys) i = coordSum xs i + coordSum ys i := by
  simp [coordSum]

theorem coordSum2_append {d : ℕ} (xs ys : List (Fin d → ℝ)) (i j : Fin d) :
    coordSum2 (xs ++ ys) i j = coordSum2 xs i j + coordSum2 ys i j := by
  simp [coordSum2]

theorem sum_map_shift {d : ℕ} (B : List (Fin d → ℝ)) (i j : Fin d) (a b : ℝ) :
    (B.map fun x => (x i - a) * (x j - b)).sum =
      coordSum2 B i j - a * coordSum B j - b * coordSum B i + B.length * (a * b) := by
  induction B with
  | nil => simp [coordSum, coordSum2]
  | cons y ys ih =>
    simp only [List.map_cons, List.sum_cons, List.length_cons, ih,
      coordSum, coordSum2] at *
    push_cast
    ring

theorem batchM2_eq {d : ℕ} (B : List (Fin d → ℝ)) (i j : Fin d) :
    batchM2 B i j = coordSum2 B i j - coordSum B i * coordSum B j / B.length := by
  rcases eq_or_ne B.length 0 with h | h
  · rw [List.length_eq_zero] at h
    subst h
    simp [batchM2, coordSum, coordSum2]
  · have hne : (B.length : ℝ) ≠ 0 := Nat.cast_ne_zero.mpr h
    rw [batchM2, sum_map_shift, batchMean, batchMean]
    field_simp
    ring

theorem statsOf_nil {d : ℕ} : statsOf ([] : List (Fin d → ℝ)) = initStats := by
  unfold statsOf initStats coordSum coordSum2
  simp

theorem update_statsOf {d : ℕ} (xs B : List (Fin d → ℝ)) :
    update (statsOf xs) B = statsOf (xs ++ B) := by
  rcases eq_or_ne B.length 0 with hB | hB
  · rw [List.length_eq_zero] at hB
    subst hB
    simp [update]
  · have hmne : (B.length : ℝ) ≠ 0 := Nat.cast_ne_zero.mpr hB
    rw [update, if_neg hB]
    simp only [statsOf, StreamStats.mk.injEq]
    refine ⟨by simp, ?_, ?_⟩
    · funext i
      simp only [List.length_append, coordSum_append, batchMean]
      rcases eq_or_ne xs.length 0 with hx | hx
      · rw [List.length_eq_zero] at hx
        subst hx
        simp only [List.length_nil, coordSum, List.map_nil, List.sum_nil,
          Nat.cast_zero, zero_div, zero_add, sub_zero]
        field_simp
      · have hxne : (xs.length : ℝ) ≠ 0 := Nat.cast_ne_zero.mpr hx
        have hsum : ((xs.length : ℝ) + B.length) ≠ 0 := by positivity
        push_cast
        field_simp
        ring
    · funext i j
      simp only [List.length_append, coordSum_append, coordSum2_append,
        batchM2_eq, batchMean]
      rcases eq_or_ne xs.length 0 with hx | hx
      · rw [List.length_eq_zero] at hx
        subst hx
        simp only [List.length_nil, coordSum, coordSum2, List.map_nil,
          List.sum_nil, Nat.cast_zero, zero_div, zero_add, sub_zero, zero_mul,
          mul_zero, zero_sub, zero_add]
        field_simp
      · have hxne : (xs.length : ℝ) ≠ 0 := Nat.cast_ne_zero.mpr hx
        have hsum : ((xs.length : ℝ) + B.length) ≠ 0 := by positivity
        push_cast
        field_simp
        ring

theorem foldl_update_statsOf {d : ℕ} (batches : List (List (Fin d → ℝ)))
    (xs : List (Fin d → ℝ)) :
    List.foldl update (statsOf xs) batches = statsOf (xs ++ batches.flatten) := by
  induction batches generalizing xs with
  | nil => simp
  | cons B bs ih =>
    simp only [List.foldl_cons, List.flatten_cons, update_statsOf, ih,
      List.append_assoc]

theorem statsOf_perm {d : ℕ} {xs ys : List (Fin d → ℝ)} (h : xs.Perm ys) :
    statsOf xs = statsOf ys := by
  simp only [statsOf, StreamStats.mk.injEq]
  refine ⟨h.length_eq, ?_, ?_⟩
  · funext i
    rw [coordSum, coordSum, (h.map _).sum_eq, h.length_eq]
  · funext i j
    rw [coordSum2, coordSum2, (h.map fun x => x i * x j).sum_eq, h.length_eq,
      coordSum, coordSum, (h.map fun x => x i).sum_eq,
      (h.map fun x => x j).sum_eq]
    rfl

end Ccs

namespace Ccs

/-! ## Evaluation Engine

Modelled from the spec: the metrics module (`evaluate_preds`, `to_one_hot`,
`get_logprobs`) imported by `train.py` is not in the repository snapshot.
Following spec section 4.4, credences are an `n x v x k` nested list; the three
ensembling modes collapse the variant axis at different points: `none` scores
every (example, variant) pair, `partial` averages credences in probability
space, `full` averages in log-odds space and converts back through the
sigmoid.  The metric record holds accuracy, area-under-curve and log-loss. -/

/-- A credence tensor: examples, then variants, then answer choices. -/
abbrev Tensor3 := List (List (List ℝ))

/-- A hidden-state tensor: examples, variants, choices, hidden coordinates. -/
abbrev Tensor4 := List (List (List (List ℝ)))

/-- The three ensembling modes, in the order `train.py` iterates them. -/
def modesList : List String := ["none", "partial", "full"]

/-- Probability-space average of the per-variant credence rows. -/
noncomputable def probAvgRow (vs : List (List ℝ)) : List ℝ :=
  (List.range (vs.headD []).length).map fun j =>
    (vs.map fun row => row.getD j 0).sum / vs.length

/-- Log-odds-space average of the per-variant credence rows: map to logits,
average, squash back. -/
noncomputable def logitAvgRow (vs : List (List ℝ)) : List ℝ :=
  (List.range (vs.headD []).length).map fun j =>
    sigmoid ((vs.map fun row => logit (row.getD j 0)).sum / vs.length)

/-- Collapse the variant axis of a credence tensor under an ensembling mode. -/
noncomputable def aggregate (mode : String) (c : Tensor3) : List (List ℝ) :=
  if mode = "none" then c.flatten
  else if mode = "partial" then c.map probAvgRow
  else if mode = "full" then c.map logitAvgRow
  else []

/-- The labels paired with the aggregated predictions: under `none` each label
is repeated once per variant of its example. -/
def aggLabels (mode : String) (labels : List ℕ) (c : Tensor3) : List ℕ :=
  if mode = "none" then
    (labels.zip c).flatMap fun p => List.replicate p.2.length p.1
  else labels

/-- Index of the largest entry of a row (first occurrence wins). -/
noncomputable def argmaxIdx (row : List ℝ) : ℕ :=
  (row.enum.foldl (fun best p => if best.2 < p.2 then p else best)
    (0, row.headD 0)).1

/-- Fraction of examples whose argmax choice equals the label. -/
noncomputable def accuracyOf (labels : List ℕ) (preds : List (List ℝ)) : ℝ :=
  (((labels.zip preds).countP fun p => argmaxIdx p.2 == p.1 : ℕ) : ℝ) /
    (labels.zip preds).length

/-- Pairwise area under the ROC curve for the binary choice-1 score. -/
noncomputable def aurocOf (labels : List ℕ) (preds : List (List ℝ)) : ℝ :=
  let scored := labels.zip (preds.map fun row => row.getD 1 0)
  let pos := (scored.filter fun p => p.1 == 1).map fun p => p.2
  let neg := (scored.filter fun p => ¬ p.1 == 1).map fun p => p.2
  let pairs := pos.product neg
  ((pairs.countP fun q => decide (q.2 < q.1) : ℕ) +
      (pairs.countP fun q => q.1 == q.2 : ℕ) / 2 : ℝ) /
    (pos.length * neg.length)

/-- Mean negative log credence assigned to the true choice. -/
noncomputable def loglossOf (labels : List ℕ) (preds : List (List ℝ)) : ℝ :=
  -((labels.zip preds).map fun p => Real.log (p.2.getD p.1 0)).sum /
    (labels.zip preds).length

/-- One aggregated metric record of the Evaluation Engine. -/
structure MetricsRecord where
  acc : ℝ
  auroc : ℝ
  logloss : ℝ

/-- All metrics of a (labels, aggregated predictions) pair. -/
noncomputable def metricsOf (labels : List ℕ) (preds : List (List ℝ)) :
    MetricsRecord :=
  ⟨accuracyOf labels preds, aurocOf labels preds, loglossOf labels preds⟩

/-- The Evaluation Engine: a pure function of labels, credences and mode. -/
noncomputable def evaluatePreds (labels : List ℕ) (c : Tensor3) (mode : String) :
    MetricsRecord :=
  metricsOf (aggLabels mode labels c) (aggregate mode c)

theorem selfMapGetD (l : List ℝ) :
    (List.range l.length).map (fun j => l.getD j 0) = l := by
  apply List.ext_getElem
  · simp
  · intro i h1 h2
    simp only [List.getElem_map, List.getElem_range]
    rw [List.getD_eq_getElem]

theorem probAvgRow_single (row : List ℝ) : probAvgRow [row] = row := by
  unfold probAvgRow
  simp only [List.headD_cons, List.map_cons, List.map_nil, List.sum_cons,
    List.sum_nil, add_zero, List.length_singleton, Nat.cast_one, div_one]
  exact selfMapGetD row

theorem logitAvgRow_single (row : List ℝ)
    (h : ∀ p ∈ row, 0 < p ∧ p < 1) : logitAvgRow [row] = row := by
  unfold logitAvgRow
  simp only [List.headD_cons, List.map_cons, List.map_nil, List.sum_cons,
    List.sum_nil, add_zero, List.length_singleton, Nat.cast_one, div_one]
  apply List.ext_getElem
  · simp
  · intro i h1 h2
    simp only [List.getElem_map, List.getElem_range]
    rw [List.getD_eq_getElem]
    have hmem : row[i] ∈ row := List.getElem_mem (by simpa using h1)
    exact sigmoid_logit _ (h _ hmem).1 (h _ hmem).2

theorem flatten_single_variant (c : Tensor3) (h : ∀ ex ∈ c, ex.length = 1) :
    c.flatten = c.map fun ex => ex.headD [] := by
  induction c with
  | nil => simp
  | cons ex rest ih =>
    have hex := h ex (by simp)
    rw [List.length_eq_one] at hex
    obtain ⟨row, rfl⟩ := hex
    simp only [List.flatten_cons, List.map_cons, List.headD_cons,
      List.singleton_append, List.cons.injEq, true_and]
    exact ih fun e he => h e (by simp [he])

theorem zip_flatMap_replicate_single (labels : List ℕ) (c : Tensor3)
    (hn : labels.length = c.length) (h : ∀ ex ∈ c, ex.length = 1) :
    ((labels.zip c).flatMap fun p => List.replicate p.2.length p.1) = labels := by
  induction labels generalizing c with
  | nil => simp
  | cons l ls ih =>
    match c, hn with
    | ex :: rest, hn =>
      have hex := h ex (by simp)
      rw [List.length_eq_one] at hex
      obtain ⟨row, rfl⟩ := hex
      simp only [List.zip_cons_cons, List.flatMap_cons, List.length_cons,
        List.length_nil, zero_add, List.replicate_one, List.singleton_append,
        List.cons.injEq, true_and]
      exact ih rest (by simpa using hn) fun e he => h e (by simp [he])

theorem aggLabels_none_single_variant (labels : List ℕ) (c : Tensor3)
    (hn : labels.length = c.length) (h : ∀ ex ∈ c, ex.length = 1) :
    aggLabels ("none") labels c = labels := by
  unfold aggLabels
  rw [if_pos rfl]
  exact zip_flatMap_replicate_single labels c hn h

end Ccs

namespace Ccs

/-! ## Probes and Reporters -/

/-- Dot product of a weight vector and an input vector (`nn.Linear` weights
applied to an input). -/
def dot (w x : List ℝ) : ℝ := (List.zipWith (· * ·) w x).sum

/-- The `LinearProbe.forward` of `src/elk/utils_evaluation/probes.py`: a
one-output linear layer followed by `torch.sigmoid`. -/
noncomputable def linearProbeForward (w : List ℝ) (b : ℝ) (x : List ℝ) : ℝ :=
  sigmoid (dot w x + b)

/-- A fitted reporter: learned direction and bias plus the stored affine
calibration (scale, bias), per the spec's Reporter data model.  Modelled from
the spec: the concrete reporter classes (`ccs_reporter.py`,
`eigen_reporter.py`) are not in the repository snapshot. -/
structure Reporter where
  w : List ℝ
  b : ℝ
  scale : ℝ
  bias : ℝ

/-- The reporter's raw score: projection onto the learned direction. -/
noncomputable def Reporter.rawScore (r : Reporter) (x : List ℝ) : ℝ :=
  dot r.w x + r.b

/-- The reporter's credence: the raw score pushed through the stored affine
calibration in logit space and then the sigmoid. -/
noncomputable def Reporter.credence (r : Reporter) (x : List ℝ) : ℝ :=
  sigmoid (r.scale * r.rawScore x + r.bias)

/-- Apply a reporter to a whole hidden tensor, yielding a credence tensor. -/
noncomputable def reporterCred (r : Reporter) (t : Tensor4) : Tensor3 :=
  t.map fun ex => ex.map fun vr => vr.map fun x => r.credence x

/-! ## Calibrator

Modelled from the spec: `platt_scale` lives in the reporter classes missing
from the snapshot.  Per spec section 4.3, it fits a one-dimensional affine
transform (scale, bias) in logit space against labeled data under a log-loss
criterion and freezes it inside the Reporter without touching the learned
direction.  The log-loss fit is modelled as a fixed number of gradient steps
on the log-loss objective, starting from the identity transform. -/

/-- Gradient of the log-loss of `sigmoid (s * z + b)` against targets. -/
noncomputable def plattGrad (zs ys : List ℝ) (s b : ℝ) : ℝ × ℝ :=
  (((zs.zip ys).map fun p => (sigmoid (s * p.1 + b) - p.2) * p.1).sum / zs.length,
   ((zs.zip ys).map fun p => (sigmoid (s * p.1 + b) - p.2)).sum / zs.length)

/-- Gradient iteration for the Platt calibration parameters. -/
noncomputable def plattIter (zs ys : List ℝ) : ℕ → ℝ × ℝ
  | 0 => (1, 0)
  | t + 1 =>
    let sb := plattIter zs ys t
    let g := plattGrad zs ys sb.1 sb.2
    (sb.1 - g.1 / 100, sb.2 - g.2 / 100)

/-- Post-fit Platt calibration: refit only the affine (scale, bias) from the
reporter's raw scores on the given sample; the direction is untouched. -/
noncomputable def plattScale (r : Reporter) (ys : List ℝ) (xs : List (List ℝ)) :
    Reporter :=
  let zs := xs.map fun x => r.rawScore x
  let sb := plattIter zs ys 100
  { r with scale := sb.1, bias := sb.2 }

theorem plattScale_w (r : Reporter) (ys : List ℝ) (xs : List (List ℝ)) :
    (plattScale r ys xs).w = r.w := rfl

theorem plattScale_b (r : Reporter) (ys : List ℝ) (xs : List (List ℝ)) :
    (plattScale r ys xs).b = r.b := rfl

/-! ## Contrastive Reporter Optimizer

Modelled from the spec: `ccs_reporter.py` (the `CcsReporter` class) is not in
the repository snapshot.  Per spec section 4.2, the optimizer minimizes a
weighted consistency + confidence loss by gradient descent over a linear
probe, from several pseudo-random initializations seeded deterministically,
keeping the restart with the lowest final loss. -/

/-- Hyperparameters of the contrastive (CCS) fitter. -/
structure CcsConfig where
  seed : ℕ
  numTries : ℕ
  numSteps : ℕ
  lr : ℝ

/-- Hyperparameters of the eigen fitter. -/
structure EigenCfg where
  seed : ℕ

/-- A linear probe being optimized: weights and bias. -/
structure CcsProbe where
  w : List ℝ
  b : ℝ

/-- A 64-bit linear congruential pseudo-random step. -/
def lcg (s : ℕ) : ℕ := (6364136223846793005 * s + 1442695040888963407) % 2 ^ 64

/-- Deterministic pseudo-random probe initialization from a seed. -/
noncomputable def initProbe (seed d : ℕ) : CcsProbe :=
  ⟨(List.range d).map fun i => ((lcg^[i + 1] seed) % 2017 : ℕ) / 1008 - 1, 0⟩

/-- Per-(example, variant) credences of a probe over the answer choices. -/
noncomputable def probePs (p : CcsProbe) (vr : List (List ℝ)) : List ℝ :=
  vr.map fun x => sigmoid (dot p.w x + p.b)

/-- The CCS loss of one (example, variant) pair: squared deviation of the
total credence from one, plus squared minimum credence. -/
noncomputable def pairLoss (p : CcsProbe) (vr : List (List ℝ)) : ℝ :=
  ((probePs p vr).sum - 1) ^ 2 + ((probePs p vr).foldr min 1) ^ 2

/-- The CCS loss: mean pair loss over all (example, variant) pairs. -/
noncomputable def ccsLoss (p : CcsProbe) (t : Tensor4) : ℝ :=
  (t.flatten.map fun vr => pairLoss p vr).sum / t.flatten.length

/-- Vector sum. -/
def vecAdd (u v : List ℝ) : List ℝ := List.zipWith (· + ·) u v

/-- Scalar multiple of a vector. -/
def vecScale (a : ℝ) (v : List ℝ) : List ℝ := v.map fun x => a * x

/-- The choice with the smallest credence together with its input vector. -/
noncomputable def minScored (scored : List (ℝ × List ℝ)) : ℝ × List ℝ :=
  scored.foldl (fun best q => if q.1 < best.1 then q else best)
    (scored.headD (1, []))

/-- Hand-derived gradient of `pairLoss` in the probe weights and bias. -/
noncomputable def pairGrad (p : CcsProbe) (d : ℕ) (vr : List (List ℝ)) :
    List ℝ × ℝ :=
  let scored := vr.map fun x => (sigmoid (dot p.w x + p.b), x)
  let tot := (scored.map fun q => q.1).sum
  let c1 := 2 * (tot - 1)
  let consW := scored.foldl
    (fun acc q => vecAdd acc (vecScale (c1 * q.1 * (1 - q.1)) q.2))
    (List.replicate d 0)
  let consB := (scored.map fun q => c1 * q.1 * (1 - q.1)).sum
  let m := minScored scored
  let confW := vecScale (2 * m.1 * m.1 * (1 - m.1)) m.2
  let confB := 2 * m.1 * m.1 * (1 - m.1)
  (vecAdd consW confW, consB + confB)

/-- Full-batch gradient of the CCS loss. -/
noncomputable def ccsGrad (p : CcsProbe) (d : ℕ) (t : Tensor4) : List ℝ × ℝ :=
  let pairs := t.flatten
  let g := pairs.foldl
    (fun acc vr =>
      let pg := pairGrad p d vr
      (vecAdd acc.1 pg.1, acc.2 + pg.2))
    (List.replicate d 0, 0)
  (vecScale (1 / pairs.length) g.1, g.2 / pairs.length)

/-- One gradient-descent step on the CCS loss. -/
noncomputable def ccsStep (c : CcsConfig) (d : ℕ) (t : Tensor4) (p : CcsProbe) :
    CcsProbe :=
  let g := ccsGrad p d t
  ⟨List.zipWith (fun wi gi => wi - c.lr * gi) p.w g.1, p.b - c.lr * g.2⟩

/-- Gradient descent from a given initialization. -/
noncomputable def ccsDescend (c : CcsConfig) (d : ℕ) (t : Tensor4)
    (p : CcsProbe) : CcsProbe :=
  (ccsStep c d t)^[c.numSteps] p

/-- Contrastive fit: optimize from `numTries` seeded restarts and keep the
restart with the lowest final loss; also return that loss. -/
noncomputable def ccsFitRaw (seed : ℕ) (c : CcsConfig) (d : ℕ) (t : Tensor4) :
    CcsProbe × ℝ :=
  let runOne := fun i =>
    let p := ccsDescend c d t (initProbe (lcg^[i] seed) d)
    (p, ccsLoss p t)
  let candidates := (List.range c.numTries).map runOne
  candidates.foldl (fun best q => if q.2 < best.2 then q else best)
    (candidates.headD (runOne 0))

/-- A raw (un-calibrated) reporter from an optimized probe. -/
def probeToReporter (p : CcsProbe) : Reporter := ⟨p.w, p.b, 1, 0⟩

/-! ## Eigen Solver

Modelled from the spec: the terminal `fit_streaming` consumes the accumulated
statistics and returns a linear Reporter from a numerically-robust truncated
eigendecomposition of the accumulated covariance statistics; the truncated
solve is modelled as a fixed number of power-iteration steps on the
accumulated second-moment matrix. -/

/-- Matrix-vector product of the accumulated statistics matrix. -/
def matVec {d : ℕ} (M : Fin d → Fin d → ℝ) (v : Fin d → ℝ) : Fin d → ℝ :=
  fun i => ∑ j, M i j * v j

/-- Truncated power iteration started from the all-ones vector. -/
noncomputable def powerIterOn {d : ℕ} (M : Fin d → Fin d → ℝ) (steps : ℕ) :
    Fin d → ℝ :=
  (fun v => matVec M v)^[steps] fun _ => 1

/-- Terminal solve: turn accumulated statistics into a linear Reporter. -/
noncomputable def fitStreaming (d : ℕ) (s : StreamStats d) : Reporter :=
  ⟨(List.finRange d).map (powerIterOn s.m2 10), 0, 1, 0⟩

/-- Read a list-vector as a function vector of dimension `d`. -/
def toVec (d : ℕ) (x : List ℝ) : Fin d → ℝ := fun i => x.getD i 0

/-- Flatten a four-dimensional hidden tensor into a list of `d`-vectors,
merging the variant and choice axes into the example axis. -/
def flattenT (d : ℕ) (t : Tensor4) : List (Fin d → ℝ) :=
  t.flatten.flatten.map (toVec d)

/-- Tensor-level batch update of the accumulator: flatten, then update. -/
noncomputable def updateT (d : ℕ) (s : StreamStats d) (t : Tensor4) :
    StreamStats d :=
  update s (flattenT d t)

end Ccs

namespace Ccs

/-! ## Layer Orchestrator (`src/ccs/training/train.py`, `Elicit.apply_to_layer`) -/

/-- One prepared per-dataset, per-split Hidden-State Bundle. -/
structure Bundle where
  hiddens : Tensor4
  labels : List ℕ
  lmPreds : Option Tensor3

/-- The variant count `hiddens.shape[1]`. -/
def dimV (t : Tensor4) : ℕ := (t.headD []).length

/-- The class count `hiddens.shape[-2]`. -/
def dimK (t : Tensor4) : ℕ := ((t.headD []).headD []).length

/-- The hidden dimension `hiddens.shape[-1]`. -/
def dimD (t : Tensor4) : ℕ := (((t.headD []).headD []).headD []).length

/-- The tagged fitter configuration (`subgroups({"ccs": ..., "eigen": ...})`). -/
inductive FitterConfig where
  | ccs (c : CcsConfig)
  | eigen (c : EigenCfg)

/-- The configured base seed (`self.net.seed`). -/
def FitterConfig.seed : FitterConfig → ℕ
  | .ccs c => c.seed
  | .eigen c => c.seed

/-- The run configuration fields of `Elicit` that `apply_to_layer` reads. -/
structure ElicitConfig where
  net : FitterConfig
  supervised : String

/-- The fatal errors `apply_to_layer` can raise. -/
inductive PipelineError where
  | emptyTrainDict
  | hiddenSizeMismatch
  | classCountMismatch
  | ccsMultiTask
  | keyError (ds : String)
deriving DecidableEq

/-- The message string attached to each raised error in `train.py`. -/
def errMessage : PipelineError → String
  | .emptyTrainDict => "not enough values to unpack (expected at least 1, got 0)"
  | .hiddenSizeMismatch => "All datasets must have the same hidden state size"
  | .classCountMismatch => "All datasets must have the same number of classes"
  | .ccsMultiTask => "CCS only supports single-task training"
  | .keyError ds => ds

/-- Whether a character list starts with a pattern. -/
def startsWithChars : List Char → List Char → Bool
  | _, [] => true
  | [], _ :: _ => false
  | c :: cs, p :: ps => c == p && startsWithChars cs ps

/-- Whether a pattern occurs as a contiguous substring of a string. -/
def strHas (hay pat : String) : Bool :=
  go hay.toList pat.toList
where
  go : List Char → List Char → Bool
    | [], p => p.isEmpty
    | c :: cs, p => startsWithChars (c :: cs) p || go cs p

/-- One evaluation row of the result tables. -/
structure EvalRow where
  dataset : String
  layer : ℕ
  ensembling : String
  metrics : MetricsRecord
  trainLoss : Option ℝ
  inlpIter : Option ℕ

/-- The named result tables (`row_bufs`). -/
structure Tables where
  eval : List EvalRow
  trainEval : List EvalRow
  lmEval : List EvalRow
  trainLmEval : List EvalRow
  lrEval : List EvalRow
  trainLrEval : List EvalRow

/-- The empty result tables. -/
def emptyTables : Tables := ⟨[], [], [], [], [], []⟩

/-- Concatenate result tables field by field. -/
def appendTables (a b : Tables) : Tables :=
  ⟨a.eval ++ b.eval, a.trainEval ++ b.trainEval, a.lmEval ++ b.lmEval,
   a.trainLmEval ++ b.trainLmEval, a.lrEval ++ b.lrEval,
   a.trainLrEval ++ b.trainLrEval⟩

/-- One-hot expansion of a label (modelled from the spec: `to_one_hot` lives
in the metrics module missing from the snapshot). -/
def toOneHot (l k : ℕ) : List ℝ :=
  (List.range k).map fun j => if j = l then 1 else 0

/-- Credence tensor of a supervised probe over a hidden tensor. -/
noncomputable def probeCred (p : CcsProbe) (t : Tensor4) : Tensor3 :=
  t.map fun ex => ex.map fun vr => vr.map fun x => sigmoid (dot p.w x + p.b)

/-- Modelled from the spec: `train_supervised` (the external supervised
baseline family, out of the core's scope) is not in the snapshot.  It is
modelled as a single mean-difference logistic probe over the flattened
training data of all datasets. -/
noncomputable def trainSupervised (td : List (String × Bundle)) : List CcsProbe :=
  let xs := (td.map fun p => p.2.hiddens.flatten.flatten).flatten
  let d := (xs.headD []).length
  let w := xs.foldl (fun acc x => vecAdd acc x) (List.replicate d 0)
  [⟨vecScale (1 / xs.length) w, 0⟩]

/-- The per-mode body of the evaluation loop of `apply_to_layer`
(train.py:162-244) for one dataset: appends the reporter rows, the
language-model rows when predictions are present, and the supervised rows
for each baseline iteration.  The running pair of credence tensors is
threaded through because the source rebinds `val_credences` and
`train_credences` inside the supervised loop (train.py:218-219). -/
noncomputable def modeStep (trainLoss : Option ℝ) (lrModels : List CcsProbe)
    (layer : ℕ) (ds : String) (val train : Bundle)
    (st : (Tensor3 × Tensor3) × Tables) (mode : String) :
    (Tensor3 × Tensor3) × Tables :=
  let creds := st.1
  let acc := st.2
  let evalRow : EvalRow :=
    ⟨ds, layer, mode, evaluatePreds val.labels creds.1 mode, trainLoss, none⟩
  let trainEvalRow : EvalRow :=
    ⟨ds, layer, mode, evaluatePreds train.labels creds.2 mode, trainLoss, none⟩
  let lmRows : List EvalRow :=
    match val.lmPreds with
    | some p => [⟨ds, layer, mode, evaluatePreds val.labels p mode, none, none⟩]
    | none => []
  let trainLmRows : List EvalRow :=
    match train.lmPreds with
    | some p => [⟨ds, layer, mode, evaluatePreds train.labels p mode, none, none⟩]
    | none => []
  let lr := lrModels.enum.foldl
    (fun st2 im =>
      let vc := probeCred im.2 val.hiddens
      let tc := probeCred im.2 train.hiddens
      ((vc, tc),
       st2.2.1 ++ [⟨ds, layer, mode, evaluatePreds val.labels vc mode, none, some im.1⟩],
       st2.2.2 ++ [⟨ds, layer, mode, evaluatePreds train.labels tc mode, none, some im.1⟩]))
    (creds, ([], []))
  (lr.1,
   { eval := acc.eval ++ [evalRow]
     trainEval := acc.trainEval ++ [trainEvalRow]
     lmEval := acc.lmEval ++ lmRows
     trainLmEval := acc.trainLmEval ++ trainLmRows
     lrEval := acc.lrEval ++ lr.2.1
     trainLrEval := acc.trainLrEval ++ lr.2.2 })

/-- The evaluation rows produced for one dataset of the validation dict. -/
noncomputable def dsBlock (reporter : Reporter) (trainLoss : Option ℝ)
    (lrModels : List CcsProbe) (layer : ℕ) (ds : String) (val train : Bundle) :
    Tables :=
  (modesList.foldl (modeStep trainLoss lrModels layer ds val train)
    ((reporterCred reporter val.hiddens, reporterCred reporter train.hiddens),
     emptyTables)).2

/-- Pair each validation dataset with its training bundle
(`val_dict[ds_name], train_dict[ds_name]`); a missing key raises. -/
def resolvePairs (trainDict valDict : List (String × Bundle)) :
    Except PipelineError (List (String × Bundle × Bundle)) :=
  valDict.mapM fun p =>
    match List.lookup p.1 trainDict with
    | some tr => .ok (p.1, p.2, tr)
    | none => .error (.keyError p.1)

/-- All result tables of the evaluation loop. -/
noncomputable def tablesOf (reporter : Reporter) (trainLoss : Option ℝ)
    (lrModels : List CcsProbe) (layer : ℕ)
    (pairs : List (String × Bundle × Bundle)) : Tables :=
  pairs.foldl
    (fun acc p =>
      appendTables acc (dsBlock reporter trainLoss lrModels layer p.1 p.2.1 p.2.2))
    emptyTables

/-- The fitting phase of `apply_to_layer` (train.py:90-125): dispatch on the
fitter tag, fit, and calibrate once with `platt_scale`. -/
noncomputable def fitPhase (net : FitterConfig) (seed : ℕ) (firstName : String)
    (first : Bundle) (rest : List (String × Bundle)) :
    Except PipelineError (Reporter × Option ℝ) :=
  let v := dimV first.hiddens
  let k := dimK first.hiddens
  let d := dimD first.hiddens
  match net with
  | .ccs c =>
    if rest.isEmpty then
      let fitRes := ccsFitRaw seed c d first.hiddens
      let ys := first.labels.flatMap fun l => (List.replicate v (toOneHot l k)).flatten
      let xs := first.hiddens.flatten.flatten
      .ok (plattScale (probeToReporter fitRes.1) ys xs, some fitRes.2)
    else .error .ccsMultiTask
  | .eigen _ =>
    let all := (firstName, first) :: rest
    let stats := all.foldl (fun s p => updateT d s p.2.hiddens) initStats
    let hiddenList := (all.map fun p => p.2.hiddens.flatten.flatten).flatten
    let labelList := (all.map fun p =>
      p.2.labels.flatMap fun l =>
        (List.replicate (dimV p.2.hiddens) (toOneHot l k)).flatten).flatten
    .ok (plattScale (fitStreaming d stats) labelList hiddenList, none)

/-- Everything `apply_to_layer` produces on success: the calibrated reporter,
the persisted checkpoint content, the persisted fitter config, the contrastive
training loss, the supervised models, and the result tables. -/
structure RunOutput where
  reporter : Reporter
  trainLoss : Option ℝ
  persisted : Reporter
  savedCfg : FitterConfig
  lrModels : List CcsProbe
  tables : Tables

/-- Shallow embedding of `Elicit.apply_to_layer` (train.py:61-246): derive the
seed as base seed plus layer, validate that hidden dimension and class count
agree across datasets, dispatch to the configured fitter, calibrate, persist,
optionally train the supervised baseline, and run the evaluation loop.  A
raised error short-circuits everything after it. -/
noncomputable def applyToLayer (cfg : ElicitConfig) (layer : ℕ)
    (_devices : List String) (_worldSize : ℕ)
    (trainDict valDict : List (String × Bundle)) :
    Except PipelineError RunOutput :=
  let seed := cfg.net.seed + layer
  match trainDict with
  | [] => .error .emptyTrainDict
  | (firstName, first) :: rest =>
    let k := dimK first.hiddens
    let d := dimD first.hiddens
    if ¬ (∀ p ∈ rest, dimD (Prod.snd p).hiddens = d) then
      .error .hiddenSizeMismatch
    else if ¬ (∀ p ∈ rest, dimK (Prod.snd p).hiddens = k) then
      .error .classCountMismatch
    else
      match fitPhase cfg.net seed firstName first rest with
      | .error e => .error e
      | .ok rl =>
        let lrModels :=
          if cfg.supervised = "none" then []
          else trainSupervised ((firstName, first) :: rest)
        match resolvePairs ((firstName, first) :: rest) valDict with
        | .error e => .error e
        | .ok pairs =>
          .ok { reporter := rl.1
                trainLoss := rl.2
                persisted := rl.1
                savedCfg := cfg.net
                lrModels := lrModels
                tables := tablesOf rl.1 rl.2 lrModels layer pairs }

end Ccs

namespace Ccs

/-! ## Hidden-state normalization (`src/elk/training/preprocessing.py`) -/

/-- Column-wise sums of a matrix stored as a list of rows. -/
def colSums (d : ℕ) (x : List (List ℝ)) : List ℝ :=
  x.foldr (fun r acc => List.zipWith (· + ·) r acc) (List.replicate d 0)

/-- Euclidean norm of one row (`norm(dim=-1)`). -/
noncomputable def rowNorm (r : List ℝ) : ℝ :=
  Real.sqrt ((r.map fun a => a ^ 2).sum)

/-- Shallow embedding of `normalize(train_hiddens, val_hiddens, method)`.
With `legacy` the centering mean and the scalar scale are computed from the
concatenation of train and validation; otherwise the mean (and, for
`elementwise`, the per-column scale) come from the training split alone.
An unrecognized method raises `NotImplementedError`. -/
noncomputable def normalizeHiddens (train val : List (List ℝ)) (method : String) :
    Except String (List (List ℝ) × List (List ℝ)) :=
  let d := (train.headD []).length
  if method = "legacy" then
    let master := train ++ val
    let means := (colSums d master).map fun s => s / (master.length : ℝ)
    let train1 := train.map fun r => List.zipWith (· - ·) r means
    let val1 := val.map fun r => List.zipWith (· - ·) r means
    let scale := Real.sqrt d / ((master.map rowNorm).sum / (master.length : ℝ))
    .ok (train1.map fun r => r.map fun a => a * scale,
      val1.map fun r => r.map fun a => a * scale)
  else
    let means := (colSums d train).map fun s => s / (train.length : ℝ)
    let train1 := train.map fun r => List.zipWith (· - ·) r means
    let val1 := val.map fun r => List.zipWith (· - ·) r means
    if method = "elementwise" then
      let colNorms :=
        (colSums d (train1.map fun r => r.map fun a => a ^ 2)).map Real.sqrt
      let scaleVec := colNorms.map fun s => 1 / s
      .ok (train1.map fun r => List.zipWith (· * ·) r scaleVec,
        val1.map fun r => List.zipWith (· * ·) r scaleVec)
    else if method = "meanonly" then
      .ok (train1, val1)
    else
      .error ("Scale method '" ++ method ++ "' is not supported.")

/-- The normalized training split alone. -/
noncomputable def normalizedTrain (train val : List (List ℝ)) (method : String) :
    Except String (List (List ℝ)) :=
  (normalizeHiddens train val method).map Prod.fst

end Ccs

namespace Ccs

/-! ## Claim theorems -/

/-- C1: for every collection of hidden-state tensors and every partition of it
into batches (datasets may have different variant counts), calling the eigen
fitter's `update` once per batch, in any order, then `fit_streaming()`, yields
final sufficient statistics (and hence a reporter) equal to those obtained
from observing the full concatenated, variant-flattened dataset in a single
`update` call.  Floating-point order-of-summation tolerance is idealized as
exact real arithmetic. -/
theorem eigen_update_partition_invariant {d : ℕ} (batches : List Tensor4)
    (full : Tensor4)
    (h : ((batches.map (flattenT d)).flatten).Perm (flattenT d full)) :
    batches.foldl (updateT d) initStats = updateT d initStats full
    ∧ fitStreaming d (batches.foldl (updateT d) initStats) =
        fitStreaming d (updateT d initStats full) := by
  have h1 : batches.foldl (updateT d) initStats =
      (batches.map (flattenT d)).foldl update initStats := by
    rw [List.foldl_map]
    rfl
  have h2 : batches.foldl (updateT d) initStats = updateT d initStats full := by
    rw [h1, updateT, ← statsOf_nil, foldl_update_statsOf, update_statsOf,
      List.nil_append, List.nil_append, statsOf_perm h]
  exact ⟨h2, congrArg (fitStreaming d) h2⟩

/-- Witness for C1: two singleton-batch tensors fed in the opposite order of
the concatenated dataset give the same statistics as one shot. -/
theorem eigen_update_partition_invariant_witness :
    [[[[[(1 : ℝ), 2]]]], [[[[(3 : ℝ), 4]]]]].foldl (updateT 2) initStats =
      updateT 2 initStats [[[[(3 : ℝ), 4]]], [[[(1 : ℝ), 2]]]] :=
  (eigen_update_partition_invariant [[[[[(1 : ℝ), 2]]]], [[[[(3 : ℝ), 4]]]]]
    [[[[(3 : ℝ), 4]]], [[[(1 : ℝ), 2]]]] (List.Perm.swap _ _ _)).1

end Ccs

namespace Ccs

/-- C2: on a dataset with exactly one prompt variant per example, the three
ensembling modes `none`, `partial` and `full` produce identical aggregated
credences and identical metric records. -/
theorem ensembling_modes_agree_single_variant (labels : List ℕ) (c : Tensor3)
    (hn : labels.length = c.length)
    (hv : ∀ ex ∈ c, ex.length = 1)
    (hp : ∀ ex ∈ c, ∀ vr ∈ ex, ∀ p ∈ vr, 0 < p ∧ p < 1) :
    aggregate ("none") c = aggregate ("partial") c
    ∧ aggregate ("partial") c = aggregate ("full") c
    ∧ evaluatePreds labels c ("none") = evaluatePreds labels c ("partial")
    ∧ evaluatePreds labels c ("partial") = evaluatePreds labels c ("full") := by
  have hnone : aggregate ("none") c = c.map fun ex => ex.headD [] := by
    unfold aggregate
    rw [if_pos rfl]
    exact flatten_single_variant c hv
  have hpart : aggregate ("partial") c = c.map fun ex => ex.headD [] := by
    unfold aggregate
    rw [if_neg (by decide), if_pos rfl]
    apply List.map_congr_left
    intro ex hex
    have h1 := hv ex hex
    rw [List.length_eq_one] at h1
    obtain ⟨row, rfl⟩ := h1
    rw [probAvgRow_single]
    rfl
  have hfull : aggregate ("full") c = c.map fun ex => ex.headD [] := by
    unfold aggregate
    rw [if_neg (by decide), if_neg (by decide), if_pos rfl]
    apply List.map_congr_left
    intro ex hex
    have h1 := hv ex hex
    rw [List.length_eq_one] at h1
    obtain ⟨row, rfl⟩ := h1
    rw [logitAvgRow_single row fun p hp2 => hp _ hex _ (by simp) p hp2]
    rfl
  have hlab : aggLabels ("none") labels c = labels :=
    aggLabels_none_single_variant labels c hn hv
  have hlab2 : aggLabels ("partial") labels c = labels := by
    unfold aggLabels
    rw [if_neg (by decide)]
  have hlab3 : aggLabels ("full") labels c = labels := by
    unfold aggLabels
    rw [if_neg (by decide)]
  refine ⟨hnone.trans hpart.symm, hpart.trans hfull.symm, ?_, ?_⟩
  · unfold evaluatePreds
    rw [hnone, hpart, hlab, hlab2]
  · unfold evaluatePreds
    rw [hpart, hfull, hlab2, hlab3]

/-- Witness for C2 at a concrete two-example, one-variant, two-choice credence
tensor. -/
theorem ensembling_modes_agree_single_variant_witness :
    evaluatePreds [0, 1] [[[(1 / 2 : ℝ), 1 / 2]], [[(1 / 4 : ℝ), 3 / 4]]] "none" =
      evaluatePreds [0, 1] [[[(1 / 2 : ℝ), 1 / 2]], [[(1 / 4 : ℝ), 3 / 4]]] "partial" :=
  (ensembling_modes_agree_single_variant [0, 1]
    [[[(1 / 2 : ℝ), 1 / 2]], [[(1 / 4 : ℝ), 3 / 4]]] rfl
    (by simp) (by norm_num)).2.2.1

end Ccs

namespace Ccs

/-- C3: if the prepared training datasets do not all share the same hidden
dimension, or do not all share the same class count, `apply_to_layer` raises
an error immediately; since the embedding short-circuits on `.error`, no
fitting, reporter persistence or evaluation output is produced for the
layer. -/
theorem shape_mismatch_aborts_layer (cfg : ElicitConfig) (layer : ℕ)
    (devices : List String) (ws : ℕ) (firstName : String) (first : Bundle)
    (rest valDict : List (String × Bundle))
    (h : (∃ p ∈ rest, dimD (Prod.snd p).hiddens ≠ dimD first.hiddens)
      ∨ ∃ p ∈ rest, dimK (Prod.snd p).hiddens ≠ dimK first.hiddens) :
    ∃ e, applyToLayer cfg layer devices ws ((firstName, first) :: rest) valDict
        = .error e
      ∧ (e = .hiddenSizeMismatch ∨ e = .classCountMismatch) := by
  unfold applyToLayer
  dsimp only
  by_cases hd : ∀ p ∈ rest, dimD (Prod.snd p).hiddens = dimD first.hiddens
  · have hk : ¬ ∀ p ∈ rest, dimK (Prod.snd p).hiddens = dimK first.hiddens := by
      rcases h with h | h
      · obtain ⟨p, hp, hne⟩ := h
        exact absurd (hd p hp) hne
      · intro hall
        obtain ⟨p, hp, hne⟩ := h
        exact hne (hall p hp)
    rw [if_neg (not_not_intro hd), if_pos hk]
    exact ⟨.classCountMismatch, rfl, Or.inr rfl⟩
  · rw [if_pos hd]
    exact ⟨.hiddenSizeMismatch, rfl, Or.inl rfl⟩

/-- Witness for C3: two one-example bundles with hidden dimensions 1 and 2. -/
theorem shape_mismatch_aborts_layer_witness :
    ∃ e, applyToLayer ⟨.eigen ⟨0⟩, "none"⟩ 0 [] 1
        [("a", ⟨[[[[(0 : ℝ)]]]], [0], none⟩),
         ("b", ⟨[[[[(0 : ℝ), 0]]]], [0], none⟩)] [] = .error e
      ∧ (e = .hiddenSizeMismatch ∨ e = .classCountMismatch) :=
  shape_mismatch_aborts_layer ⟨.eigen ⟨0⟩, "none"⟩ 0 [] 1 ("a")
    ⟨[[[[(0 : ℝ)]]]], [0], none⟩ [("b", ⟨[[[[(0 : ℝ), 0]]]], [0], none⟩)] []
    (Or.inl ⟨("b", ⟨[[[[(0 : ℝ), 0]]]], [0], none⟩), by simp, by simp [dimD]⟩)

/-- C4: when the contrastive (CCS) fitter is configured and the training
dictionary holds more than one dataset, the fit fails with the
single-task-only configuration error instead of fitting. -/
theorem ccs_multi_dataset_rejected (c : CcsConfig) (sup : String) (layer : ℕ)
    (devices : List String) (ws : ℕ) (firstName : String) (first : Bundle)
    (p0 : String × Bundle) (rest' valDict : List (String × Bundle))
    (hd : ∀ p ∈ p0 :: rest', dimD (Prod.snd p).hiddens = dimD first.hiddens)
    (hk : ∀ p ∈ p0 :: rest', dimK (Prod.snd p).hiddens = dimK first.hiddens) :
    applyToLayer ⟨.ccs c, sup⟩ layer devices ws
      ((firstName, first) :: p0 :: rest') valDict = .error .ccsMultiTask := by
  unfold applyToLayer
  dsimp only
  rw [if_neg (not_not_intro hd), if_neg (not_not_intro hk)]
  unfold fitPhase
  simp

/-- Witness for C4: two shape-compatible datasets under a CCS config. -/
theorem ccs_multi_dataset_rejected_witness :
    applyToLayer ⟨.ccs ⟨0, 1, 1, 1⟩, "none"⟩ 0 [] 1
      [("a", ⟨[[[[(0 : ℝ)]]]], [0], none⟩),
       ("b", ⟨[[[[(0 : ℝ)]]]], [0], none⟩)] [] = .error .ccsMultiTask :=
  ccs_multi_dataset_rejected ⟨0, 1, 1, 1⟩ "none" 0 [] 1 ("a")
    ⟨[[[[(0 : ℝ)]]]], [0], none⟩ ("b", ⟨[[[[(0 : ℝ)]]]], [0], none⟩) [] []
    (by simp [dimD]) (by simp [dimK])

end Ccs

namespace Ccs

/-- C5 (bug evidence): in the evaluation loop, with one supervised baseline
model present (the default `supervised="single"`), the reporter's `eval` rows
for the modes `partial` and `full` are computed from the supervised model's
credences, not the reporter's, because the loop rebinds
`val_credences`/`train_credences` (train.py:218-219); with no supervised
models all three rows use the reporter's credences as the spec requires. -/
theorem eval_rows_use_stale_credences (r : Reporter) (tl : Option ℝ)
    (m : CcsProbe) (layer : ℕ) (ds : String) (val train : Bundle) :
    ((dsBlock r tl [m] layer ds val train).eval.map fun row => row.metrics) =
      [evaluatePreds val.labels (reporterCred r val.hiddens) "none",
       evaluatePreds val.labels (probeCred m val.hiddens) "partial",
       evaluatePreds val.labels (probeCred m val.hiddens) "full"]
    ∧ ((dsBlock r tl [] layer ds val train).eval.map fun row => row.metrics) =
      [evaluatePreds val.labels (reporterCred r val.hiddens) "none",
       evaluatePreds val.labels (reporterCred r val.hiddens) "partial",
       evaluatePreds val.labels (reporterCred r val.hiddens) "full"] :=
  ⟨rfl, rfl⟩

end Ccs

namespace Ccs

/-- C6: `platt_scale` is applied exactly once, after fitting, whichever
fitter family is configured: on every successful run of `apply_to_layer` the
reporter is the calibration of the branch's raw fit output (the CCS-optimized
probe, or the eigen `fit_streaming` reporter fed by all streamed datasets),
the persisted artifact is that very reporter, used read-only by the
evaluation loop, and calibration changes only the stored scale and bias,
never the learned direction or its bias. -/
theorem platt_calibration_once_and_frame :
    (∀ r ys xs, (plattScale r ys xs).w = r.w ∧ (plattScale r ys xs).b = r.b)
    ∧ ∀ (net : FitterConfig) (sup : String) (layer : ℕ) (dev : List String)
        (ws : ℕ) (firstName : String) (first : Bundle)
        (rest valDict : List (String × Bundle)) (out : RunOutput),
        applyToLayer ⟨net, sup⟩ layer dev ws ((firstName, first) :: rest) valDict
          = .ok out →
        out.persisted = out.reporter
        ∧ out.reporter =
            match net with
            | .ccs c =>
              plattScale
                (probeToReporter
                  (ccsFitRaw (c.seed + layer) c (dimD first.hiddens)
                    first.hiddens).1)
                (first.labels.flatMap fun l =>
                  (List.replicate (dimV first.hiddens)
                    (toOneHot l (dimK first.hiddens))).flatten)
                first.hiddens.flatten.flatten
            | .eigen _ =>
              plattScale
                (fitStreaming (dimD first.hiddens)
                  (((firstName, first) :: rest).foldl
                    (fun s p => updateT (dimD first.hiddens) s (Prod.snd p).hiddens)
                    initStats))
                ((((firstName, first) :: rest).map fun p =>
                  (Prod.snd p).labels.flatMap fun l =>
                    (List.replicate (dimV (Prod.snd p).hiddens)
                      (toOneHot l (dimK first.hiddens))).flatten).flatten)
                ((((firstName, first) :: rest).map fun p =>
                  (Prod.snd p).hiddens.flatten.flatten).flatten) := by
  refine ⟨fun r ys xs => ⟨rfl, rfl⟩, ?_⟩
  intro net sup layer dev ws firstName first rest valDict out h
  unfold applyToLayer at h
  dsimp only at h
  by_cases hd : ∀ p ∈ rest, dimD (Prod.snd p).hiddens = dimD first.hiddens
  · by_cases hk : ∀ p ∈ rest, dimK (Prod.snd p).hiddens = dimK first.hiddens
    · rw [if_neg (not_not_intro hd), if_neg (not_not_intro hk)] at h
      cases net with
      | ccs c =>
        unfold fitPhase at h
        dsimp only at h
        cases rest with
        | nil =>
          rw [if_pos (show ([] : List (String × Bundle)).isEmpty = true from rfl)] at h
          cases hrp : resolvePairs [(firstName, first)] valDict with
          | error e =>
            rw [hrp] at h
            exact Except.noConfusion h
          | ok pairs =>
            rw [hrp] at h
            injection h with h2
            subst h2
            exact ⟨rfl, rfl⟩
        | cons q rest2 =>
          rw [if_neg (by simp)] at h
          exact Except.noConfusion h
      | eigen ec =>
        unfold fitPhase at h
        dsimp only at h
        cases hrp : resolvePairs ((firstName, first) :: rest) valDict with
        | error e =>
          rw [hrp] at h
          exact Except.noConfusion h
        | ok pairs =>
          rw [hrp] at h
          injection h with h2
          subst h2
          exact ⟨rfl, rfl⟩
    · rw [if_neg (not_not_intro hd), if_pos hk] at h
      exact Except.noConfusion h
  · rw [if_pos hd] at h
    exact Except.noConfusion h

/-- Witness for C6 on a concrete successful eigen-path run. -/
theorem platt_calibration_once_and_frame_witness :
    ∃ out, applyToLayer ⟨.eigen ⟨0⟩, "none"⟩ 0 [] 1
        [(("a"), ⟨[[[[(0 : ℝ)]]]], [0], none⟩)] [] = .ok out
      ∧ out.persisted = out.reporter :=
  ⟨_, rfl, (platt_calibration_once_and_frame.2 (.eigen ⟨0⟩) ("none") 0 [] 1
    ("a") ⟨[[[[(0 : ℝ)]]]], [0], none⟩ [] [] _ rfl).1⟩

/-- The contrastive fit phase ignores the seed stored inside the config
record; only the explicitly passed derived seed matters. -/
theorem fitPhase_ccs_seed_irrel (s₁ s₂ nt ns : ℕ) (lr : ℝ) (seed : ℕ)
    (fn : String) (f : Bundle) (r : List (String × Bundle)) :
    fitPhase (.ccs ⟨s₁, nt, ns, lr⟩) seed fn f r =
      fitPhase (.ccs ⟨s₂, nt, ns, lr⟩) seed fn f r := rfl

/-- C7: `apply_to_layer` is reproducible: the optimizer seed is derived as
configured base seed plus layer index, and the fitted reporter and training
loss depend on nothing else — not on the device list or world size, and two
runs whose base seed and layer index have the same sum (all other
hyperparameters and data equal) produce the same reporter and loss. -/
theorem ccs_fit_deterministic_in_derived_seed (c₁ c₂ : CcsConfig)
    (sup : String) (l₁ l₂ : ℕ) (dev₁ dev₂ : List String) (ws₁ ws₂ : ℕ)
    (trainDict valDict : List (String × Bundle))
    (hseed : c₁.seed + l₁ = c₂.seed + l₂)
    (ht : c₁.numTries = c₂.numTries) (hs : c₁.numSteps = c₂.numSteps)
    (hl : c₁.lr = c₂.lr) :
    (applyToLayer ⟨.ccs c₁, sup⟩ l₁ dev₁ ws₁ trainDict valDict).map
        (fun o => (o.reporter, o.trainLoss)) =
      (applyToLayer ⟨.ccs c₂, sup⟩ l₂ dev₂ ws₂ trainDict valDict).map
        (fun o => (o.reporter, o.trainLoss)) := by
  obtain ⟨s₁, nt₁, ns₁, lr₁⟩ := c₁
  obtain ⟨s₂, nt₂, ns₂, lr₂⟩ := c₂
  simp only at ht hs hl hseed
  subst ht hs hl
  rcases trainDict with _ | ⟨⟨firstName, first⟩, rest⟩
  · rfl
  · unfold applyToLayer
    dsimp only [FitterConfig.seed]
    by_cases hd : ∀ p ∈ rest, dimD (Prod.snd p).hiddens = dimD first.hiddens
    · by_cases hk : ∀ p ∈ rest, dimK (Prod.snd p).hiddens = dimK first.hiddens
      · simp only [if_neg (not_not_intro hd), if_neg (not_not_intro hk)]
        rw [hseed, fitPhase_ccs_seed_irrel s₁ s₂]
        cases fitPhase (.ccs ⟨s₂, nt₁, ns₁, lr₁⟩) (s₂ + l₂) firstName first rest with
        | error e => rfl
        | ok rl =>
          cases resolvePairs ((firstName, first) :: rest) valDict with
          | error e => rfl
          | ok pairs => rfl
      · simp only [if_neg (not_not_intro hd), if_pos hk]
    · simp only [if_pos hd]

/-- Witness for C7: seed 5 at layer 3 and seed 3 at layer 5 agree. -/
theorem ccs_fit_deterministic_in_derived_seed_witness :
    (applyToLayer ⟨.ccs ⟨5, 1, 1, 1⟩, "none"⟩ 3 ["cuda:0"] 2
        [("a", ⟨[[[[(0 : ℝ)]]]], [0], none⟩)] []).map
        (fun o => (o.reporter, o.trainLoss)) =
      (applyToLayer ⟨.ccs ⟨3, 1, 1, 1⟩, "none"⟩ 5 [] 1
        [("a", ⟨[[[[(0 : ℝ)]]]], [0], none⟩)] []).map
        (fun o => (o.reporter, o.trainLoss)) :=
  ccs_fit_deterministic_in_derived_seed ⟨5, 1, 1, 1⟩ ⟨3, 1, 1, 1⟩ "none" 3 5
    ["cuda:0"] [] 2 1 [("a", ⟨[[[[(0 : ℝ)]]]], [0], none⟩)] []
    rfl rfl rfl rfl

end Ccs

namespace Ccs

/-- C8 (counterexample): the Reporter data model stores an arbitrary real
calibration scale, and nothing in the fit constrains its sign (the CCS
objective is symmetric in the sign of the learned direction, so the log-loss
calibration fit is exactly what orients the reporter and can produce a
negative scale).  A Reporter with direction `[1]` and stored scale `-1` has a
strictly larger raw score on input `[1]` than on `[0]`, yet a strictly
smaller calibrated credence: calibration reverses, rather than preserves, the
monotone relation the claim asserts unconditionally. -/
theorem calibration_negative_scale_counterexample :
    Reporter.rawScore ⟨[1], 0, -1, 0⟩ [0] < Reporter.rawScore ⟨[1], 0, -1, 0⟩ [1]
    ∧ Reporter.credence ⟨[1], 0, -1, 0⟩ [1]
        < Reporter.credence ⟨[1], 0, -1, 0⟩ [0] := by
  have h := sigmoid_strictMono (show (-1 : ℝ) < 0 by norm_num)
  constructor
  · norm_num [Reporter.rawScore, dot]
  · simpa [Reporter.credence, Reporter.rawScore, dot] using h

/-- C8 (amended): probe and reporter outputs are credences in [0,1] for every
finite-valued input — the linear projection is squashed through the sigmoid —
and the affine logit-space calibration relates raw score and calibrated
probability strictly monotonically when the stored scale is positive, and
reverses the relation when the scale is negative: preservation holds exactly
up to the sign of the fitted scale, not unconditionally. -/
theorem reporter_bounds_calibration_monotone :
    (∀ w b x, 0 ≤ linearProbeForward w b x ∧ linearProbeForward w b x ≤ 1)
    ∧ (∀ (r : Reporter) x, 0 ≤ r.credence x ∧ r.credence x ≤ 1)
    ∧ (∀ (s cb z₁ z₂ : ℝ), 0 < s → z₁ < z₂ →
        sigmoid (s * z₁ + cb) < sigmoid (s * z₂ + cb))
    ∧ ∀ (s cb z₁ z₂ : ℝ), s < 0 → z₁ < z₂ →
        sigmoid (s * z₂ + cb) < sigmoid (s * z₁ + cb) := by
  refine ⟨fun w b x => ⟨?_, ?_⟩, fun r x => ⟨?_, ?_⟩,
    fun s cb z₁ z₂ hs hz => ?_, fun s cb z₁ z₂ hs hz => ?_⟩
  · exact le_of_lt (sigmoid_pos _)
  · exact le_of_lt (sigmoid_lt_one _)
  · exact le_of_lt (sigmoid_pos _)
  · exact le_of_lt (sigmoid_lt_one _)
  · exact sigmoid_strictMono (by nlinarith)
  · exact sigmoid_strictMono (by nlinarith)

/-- Witness for C8's two conditional monotonicity conjuncts, at scales 1 and
-1, bias 0, raw scores 0 and 1. -/
theorem reporter_bounds_calibration_monotone_witness :
    ((0 : ℝ) < 1 ∧ sigmoid (1 * 0 + 0) < sigmoid (1 * 1 + 0))
    ∧ ((-1 : ℝ) < 0 ∧ sigmoid ((-1) * 1 + 0) < sigmoid ((-1) * 0 + 0)) :=
  ⟨⟨one_pos,
    reporter_bounds_calibration_monotone.2.2.1 1 0 0 1 one_pos one_pos⟩,
   ⟨by norm_num,
    reporter_bounds_calibration_monotone.2.2.2 (-1) 0 0 1 (by norm_num) one_pos⟩⟩

/-- C9 (counterexample): each of the representable enumerated fatal errors of
`apply_to_layer` — hidden-dimension mismatch, class-count mismatch, and the
contrastive fitter given multiple datasets — is raised, at layers 3, 4 and 5
with dataset names "imdb"/"rte", "boolq"/"piqa" and "sst2"/"qnli"
respectively, as a fixed message that mentions neither the layer index nor
any of those dataset names; so the claim that these fatal errors carry the
layer index and dataset name is false. -/
theorem error_context_missing_counterexample :
    (applyToLayer ⟨.eigen ⟨0⟩, "none"⟩ 3 [] 1
        [("imdb", ⟨[[[[(0 : ℝ)]]]], [0], none⟩),
         ("rte", ⟨[[[[(0 : ℝ), 0]]]], [0], none⟩)] []
        = .error .hiddenSizeMismatch
      ∧ strHas (errMessage .hiddenSizeMismatch) "3" = false
      ∧ strHas (errMessage .hiddenSizeMismatch) "imdb" = false
      ∧ strHas (errMessage .hiddenSizeMismatch) "rte" = false)
    ∧ (applyToLayer ⟨.eigen ⟨0⟩, "none"⟩ 4 [] 1
        [("boolq", ⟨[[[[(0 : ℝ)]]]], [0], none⟩),
         ("piqa", ⟨[[[[(0 : ℝ)], [0]]]], [0], none⟩)] []
        = .error .classCountMismatch
      ∧ strHas (errMessage .classCountMismatch) "4" = false
      ∧ strHas (errMessage .classCountMismatch) "boolq" = false
      ∧ strHas (errMessage .classCountMismatch) "piqa" = false)
    ∧ (applyToLayer ⟨.ccs ⟨0, 1, 1, 1⟩, "none"⟩ 5 [] 1
        [("sst2", ⟨[[[[(0 : ℝ)]]]], [0], none⟩),
         ("qnli", ⟨[[[[(0 : ℝ)]]]], [0], none⟩)] []
        = .error .ccsMultiTask
      ∧ strHas (errMessage .ccsMultiTask) "5" = false
      ∧ strHas (errMessage .ccsMultiTask) "sst2" = false
      ∧ strHas (errMessage .ccsMultiTask) "qnli" = false) := by
  refine ⟨⟨?_, rfl, rfl, rfl⟩, ⟨?_, rfl, rfl, rfl⟩, ⟨?_, rfl, rfl, rfl⟩⟩
  · unfold applyToLayer
    dsimp only
    rw [if_pos]
    intro hall
    have := hall ("rte", ⟨[[[[(0 : ℝ), 0]]]], [0], none⟩) (by simp)
    simp [dimD] at this
  · unfold applyToLayer
    dsimp only
    rw [if_neg (not_not_intro (by simp [dimD])), if_pos]
    intro hall
    have := hall ("piqa", ⟨[[[[(0 : ℝ)], [0]]]], [0], none⟩) (by simp)
    simp [dimK] at this
  · unfold applyToLayer
    dsimp only
    rw [if_neg (not_not_intro (by simp [dimD])),
      if_neg (not_not_intro (by simp [dimK]))]
    unfold fitPhase
    simp

/-- C9 (amended): each enumerated fatal error kind (hidden-dimension
mismatch, class-count mismatch, contrastive fitter given multiple datasets)
aborts the layer and is surfaced to the caller, but the surfaced error value
— and hence its fixed per-kind message — is independent of the layer index,
the dataset names, the devices, the seed and the rest of the configuration,
so in particular it conveys neither the layer index nor any dataset name.
(A missing validation key instead raises a KeyError carrying exactly the
dataset name, as in Python; the enumerated validation errors carry no such
context.) -/
theorem fatal_errors_independent_of_context :
    (∀ (cfg cfg2 : ElicitConfig) (l l2 : ℕ) (dev dev2 : List String)
       (ws ws2 : ℕ) (n₁ n₂ n₃ n₄ : String) (b₁ b₂ b₃ b₄ : Bundle)
       (vd vd2 : List (String × Bundle)),
       dimD b₂.hiddens ≠ dimD b₁.hiddens → dimD b₄.hiddens ≠ dimD b₃.hiddens →
       applyToLayer cfg l dev ws [(n₁, b₁), (n₂, b₂)] vd
           = .error .hiddenSizeMismatch
       ∧ applyToLayer cfg2 l2 dev2 ws2 [(n₃, b₃), (n₄, b₄)] vd2
           = applyToLayer cfg l dev ws [(n₁, b₁), (n₂, b₂)] vd)
    ∧ (∀ (cfg cfg2 : ElicitConfig) (l l2 : ℕ) (dev dev2 : List String)
       (ws ws2 : ℕ) (n₁ n₂ n₃ n₄ : String) (b₁ b₂ b₃ b₄ : Bundle)
       (vd vd2 : List (String × Bundle)),
       dimD b₂.hiddens = dimD b₁.hiddens → dimK b₂.hiddens ≠ dimK b₁.hiddens →
       dimD b₄.hiddens = dimD b₃.hiddens → dimK b₄.hiddens ≠ dimK b₃.hiddens →
       applyToLayer cfg l dev ws [(n₁, b₁), (n₂, b₂)] vd
           = .error .classCountMismatch
       ∧ applyToLayer cfg2 l2 dev2 ws2 [(n₃, b₃), (n₄, b₄)] vd2
           = applyToLayer cfg l dev ws [(n₁, b₁), (n₂, b₂)] vd)
    ∧ ∀ (c c2 : CcsConfig) (sup sup2 : String) (l l2 : ℕ)
       (dev dev2 : List String) (ws ws2 : ℕ) (n₁ n₂ n₃ n₄ : String)
       (b₁ b₂ b₃ b₄ : Bundle) (vd vd2 : List (String × Bundle)),
       dimD b₂.hiddens = dimD b₁.hiddens → dimK b₂.hiddens = dimK b₁.hiddens →
       dimD b₄.hiddens = dimD b₃.hiddens → dimK b₄.hiddens = dimK b₃.hiddens →
       applyToLayer ⟨.ccs c, sup⟩ l dev ws [(n₁, b₁), (n₂, b₂)] vd
           = .error .ccsMultiTask
       ∧ applyToLayer ⟨.ccs c2, sup2⟩ l2 dev2 ws2 [(n₃, b₃), (n₄, b₄)] vd2
           = applyToLayer ⟨.ccs c, sup⟩ l dev ws [(n₁, b₁), (n₂, b₂)] vd := by
  have hsz : ∀ (cfg : ElicitConfig) (l : ℕ) (dev : List String) (ws : ℕ)
      (n₁ n₂ : String) (b₁ b₂ : Bundle) (vd : List (String × Bundle)),
      dimD b₂.hiddens ≠ dimD b₁.hiddens →
      applyToLayer cfg l dev ws [(n₁, b₁), (n₂, b₂)] vd
        = .error .hiddenSizeMismatch := by
    intro cfg l dev ws n₁ n₂ b₁ b₂ vd h
    unfold applyToLayer
    dsimp only
    rw [if_pos]
    intro hall
    exact h (hall (n₂, b₂) (by simp))
  have hcc : ∀ (cfg : ElicitConfig) (l : ℕ) (dev : List String) (ws : ℕ)
      (n₁ n₂ : String) (b₁ b₂ : Bundle) (vd : List (String × Bundle)),
      dimD b₂.hiddens = dimD b₁.hiddens → dimK b₂.hiddens ≠ dimK b₁.hiddens →
      applyToLayer cfg l dev ws [(n₁, b₁), (n₂, b₂)] vd
        = .error .classCountMismatch := by
    intro cfg l dev ws n₁ n₂ b₁ b₂ vd hd hk
    have hdall : ∀ p ∈ [(n₂, b₂)], dimD (Prod.snd p).hiddens = dimD b₁.hiddens := by
      intro p hp
      rw [List.mem_singleton] at hp
      subst hp
      exact hd
    unfold applyToLayer
    dsimp only
    rw [if_neg (not_not_intro hdall), if_pos]
    intro hall
    exact hk (hall (n₂, b₂) (by simp))
  have hmt : ∀ (c : CcsConfig) (sup : String) (l : ℕ) (dev : List String)
      (ws : ℕ) (n₁ n₂ : String) (b₁ b₂ : Bundle) (vd : List (String × Bundle)),
      dimD b₂.hiddens = dimD b₁.hiddens → dimK b₂.hiddens = dimK b₁.hiddens →
      applyToLayer ⟨.ccs c, sup⟩ l dev ws [(n₁, b₁), (n₂, b₂)] vd
        = .error .ccsMultiTask := by
    intro c sup l dev ws n₁ n₂ b₁ b₂ vd hd hk
    have hdall : ∀ p ∈ [(n₂, b₂)], dimD (Prod.snd p).hiddens = dimD b₁.hiddens := by
      intro p hp
      rw [List.mem_singleton] at hp
      subst hp
      exact hd
    have hkall : ∀ p ∈ [(n₂, b₂)], dimK (Prod.snd p).hiddens = dimK b₁.hiddens := by
      intro p hp
      rw [List.mem_singleton] at hp
      subst hp
      exact hk
    unfold applyToLayer
    dsimp only
    rw [if_neg (not_not_intro hdall), if_neg (not_not_intro hkall)]
    unfold fitPhase
    simp
  refine ⟨?_, ?_, ?_⟩
  · intro cfg cfg2 l l2 dev dev2 ws ws2 n₁ n₂ n₃ n₄ b₁ b₂ b₃ b₄ vd vd2 h h2
    exact ⟨hsz cfg l dev ws n₁ n₂ b₁ b₂ vd h,
      (hsz cfg2 l2 dev2 ws2 n₃ n₄ b₃ b₄ vd2 h2).trans
        (hsz cfg l dev ws n₁ n₂ b₁ b₂ vd h).symm⟩
  · intro cfg cfg2 l l2 dev dev2 ws ws2 n₁ n₂ n₃ n₄ b₁ b₂ b₃ b₄ vd vd2 hd hk hd2 hk2
    exact ⟨hcc cfg l dev ws n₁ n₂ b₁ b₂ vd hd hk,
      (hcc cfg2 l2 dev2 ws2 n₃ n₄ b₃ b₄ vd2 hd2 hk2).trans
        (hcc cfg l dev ws n₁ n₂ b₁ b₂ vd hd hk).symm⟩
  · intro c c2 sup sup2 l l2 dev dev2 ws ws2 n₁ n₂ n₃ n₄ b₁ b₂ b₃ b₄ vd vd2 hd hk hd2 hk2
    exact ⟨hmt c sup l dev ws n₁ n₂ b₁ b₂ vd hd hk,
      (hmt c2 sup2 l2 dev2 ws2 n₃ n₄ b₃ b₄ vd2 hd2 hk2).trans
        (hmt c sup l dev ws n₁ n₂ b₁ b₂ vd hd hk).symm⟩

/-- Witness for C9's amended theorem: two class-count-mismatched runs at
different layers, dataset names, devices, seeds and supervised settings
surface the identical error. -/
theorem fatal_errors_independent_of_context_witness :
    applyToLayer ⟨.eigen ⟨0⟩, "none"⟩ 1 [] 1
        [(("x"), ⟨[[[[(0 : ℝ)]]]], [0], none⟩),
         (("y"), ⟨[[[[(0 : ℝ)], [0]]]], [0], none⟩)] []
      = .error .classCountMismatch
    ∧ applyToLayer ⟨.eigen ⟨9⟩, "single"⟩ 2 ["cuda:1"] 4
        [(("u"), ⟨[[[[(0 : ℝ)]]]], [1], none⟩),
         (("v"), ⟨[[[[(0 : ℝ)], [0]]]], [1], none⟩)] []
      = applyToLayer ⟨.eigen ⟨0⟩, "none"⟩ 1 [] 1
        [(("x"), ⟨[[[[(0 : ℝ)]]]], [0], none⟩),
         (("y"), ⟨[[[[(0 : ℝ)], [0]]]], [0], none⟩)] [] :=
  fatal_errors_independent_of_context.2.1 ⟨.eigen ⟨0⟩, "none"⟩
    ⟨.eigen ⟨9⟩, "single"⟩ 1 2 [] ["cuda:1"] 1 4 ("x") ("y") ("u") ("v")
    ⟨[[[[(0 : ℝ)]]]], [0], none⟩ ⟨[[[[(0 : ℝ)], [0]]]], [0], none⟩
    ⟨[[[[(0 : ℝ)]]]], [1], none⟩ ⟨[[[[(0 : ℝ)], [0]]]], [1], none⟩ [] []
    (by simp [dimD]) (by simp [dimK]) (by simp [dimD]) (by simp [dimK])

end Ccs

namespace Ccs

/-- C10: for the `elementwise` and `meanonly` methods the normalized training
tensor depends only on the training input (two calls differing only in the
validation hidden states agree), while for `legacy` this noninterference
fails: the centering mean and the scale are computed from the train/val
concatenation, so changing the validation split changes the normalized
training data. -/
theorem normalize_noninterference_by_method :
    (∀ train val val' : List (List ℝ),
      normalizedTrain train val ("elementwise") = normalizedTrain train val' ("elementwise"))
    ∧ (∀ train val val' : List (List ℝ),
      normalizedTrain train val ("meanonly") = normalizedTrain train val' ("meanonly"))
    ∧ normalizedTrain [[(0 : ℝ)], [3]] [[6]] ("legacy")
        ≠ normalizedTrain [[(0 : ℝ)], [3]] [[12]] ("legacy") := by
  refine ⟨fun train val val' => rfl, fun train val val' => rfl, ?_⟩
  have h3 : Real.sqrt ((3 : ℝ) ^ 2 + 0) = 3 := by
    rw [add_zero, Real.sqrt_sq] ; norm_num
  have h6 : Real.sqrt ((6 : ℝ) ^ 2 + 0) = 6 := by
    rw [add_zero, Real.sqrt_sq] ; norm_num
  have h12 : Real.sqrt ((12 : ℝ) ^ 2 + 0) = 12 := by
    rw [add_zero, Real.sqrt_sq] ; norm_num
  have h0 : Real.sqrt ((0 : ℝ) ^ 2 + 0) = 0 := by
    simp
  have e1 : normalizedTrain [[(0 : ℝ)], [3]] [[6]] ("legacy") = .ok [[-1], [0]] := by
    unfold normalizedTrain normalizeHiddens
    rw [if_pos rfl]
    simp only [colSums, rowNorm, List.cons_append, List.nil_append,
      List.foldr_cons, List.foldr_nil, List.headD_cons, List.length_cons,
      List.length_nil, List.length_singleton, List.replicate, List.zipWith,
      List.map_cons, List.map_nil, List.sum_cons, List.sum_nil, h0, h3, h6,
      Real.sqrt_one, Except.map]
    norm_num
  have e2 : normalizedTrain [[(0 : ℝ)], [3]] [[12]] ("legacy")
      = .ok [[-1], [-(2 / 5)]] := by
    unfold normalizedTrain normalizeHiddens
    rw [if_pos rfl]
    simp only [colSums, rowNorm, List.cons_append, List.nil_append,
      List.foldr_cons, List.foldr_nil, List.headD_cons, List.length_cons,
      List.length_nil, List.length_singleton, List.replicate, List.zipWith,
      List.map_cons, List.map_nil, List.sum_cons, List.sum_nil, h0, h3, h12,
      Real.sqrt_one, Except.map]
    norm_num
  intro h
  rw [e1, e2] at h
  simp only [Except.ok.injEq, List.cons.injEq] at h
  have := h.2.1
  norm_num at this

end Ccs
